import Mathlib

/-!
Shallow embedding of the Falcon event-stream client
(`plugins/event_source/eventstream.py` — the earlier revision — and
`extensions/eda/plugins/event_source/eventstream.py` — the EDA revision),
together with theorems settling the specification's claims about it.

Network effects (OAuth authentication, the stream-refresh POST, wall-clock
time, and the bytes of the long-lived HTTP body) are modelled as explicit
oracle inputs; everything the client itself computes is translated from the
Python source.
-/

namespace Falcon

/-- `metadata` of a decoded event: `metadata.eventType` and `metadata.offset`
as read by `Stream.stream_events`. -/
structure Metadata where
  eventType : String
  offset : Int
deriving Repr, DecidableEq

/-- An event parsed from one line of the stream body.  The client never looks
at anything beyond `metadata`, so the rest of the JSON object is opaque. -/
structure Event where
  metadata : Metadata
deriving Repr, DecidableEq

/-- Outcome of `line.decode().rstrip()` followed by `json.loads` on one line of
the HTTP body: the line is blank, the JSON parse raises, or an event results. -/
inductive Line where
  | empty : Line
  | malformed : Line
  | event : Event → Line
deriving Repr, DecidableEq

/-- The delivery envelope `{"falcon": <event>}` handed to the output queue. -/
structure Envelope where
  falcon : Event
deriving Repr, DecidableEq

/-- The mutable per-partition state of class `Stream` (EDA revision fields).
`spigot` is the open-connection handle, abstracted to an opaque identifier. -/
structure Stream where
  stream_name : String
  data_feed : String
  token : String
  refresh_url : String
  partition : String
  offset : Int
  latest : Bool
  include_event_types : List String
  epoch : Int
  refresh_interval : Int
  spigot : Option Nat
deriving Repr, DecidableEq

/-- `self.token_expired`, generalized over the grace constant: the EDA revision
uses `((self.refresh_interval) - 60) + self.epoch < int(time.time())`, the
earlier revision `((self.refresh_interval) - 29*60) + self.epoch < ...`. -/
def tokenExpiredGrace (grace : Int) (s : Stream) (now : Int) : Bool :=
  s.refresh_interval - grace + s.epoch < now

/-- `Stream.token_expired` of the EDA revision (grace constant 60). -/
def tokenExpired (s : Stream) (now : Int) : Bool :=
  tokenExpiredGrace 60 s now

/-- `Stream.token_expired` of the earlier revision (grace constant `29*60`). -/
def oldTokenExpired (s : Stream) (now : Int) : Bool :=
  tokenExpiredGrace (29*60) s now

/-- `Stream.is_valid_event`: `event_type not in exclude_event_types`. -/
def isValidEvent (event_type : String) (exclude_event_types : List String) : Bool :=
  !(exclude_event_types.contains event_type)

/-- Oracle inputs consumed by one call to `Stream.refresh`:
the result of `AIOFalconAPI.authenticate` (`ValueError` message or access
token), the HTTP status of the `refresh_stream` POST, and the value of
`int(time.time())` when the epoch is reset. -/
structure RefreshCtx where
  auth : Except String String
  refreshStatus : Nat
  now : Int
deriving Repr

/-- `Stream.refresh`: authenticate (propagating its `ValueError`), POST the
refresh action, and on HTTP 200 reset `epoch` to now and return `True`. -/
def Stream.refresh (s : Stream) (c : RefreshCtx) : Except String (Stream × Bool) :=
  match c.auth with
  | .error e => .error e
  | .ok _token =>
    let refreshed_partition : Bool := c.refreshStatus == 200
    if refreshed_partition then
      .ok ({ s with epoch := c.now }, true)
    else
      .ok (s, false)

/-- Oracle inputs consumed by one iteration of the read loop: the value of
`int(time.time())` at the `token_expired()` check after the line is handled,
and the `RefreshCtx` used if a refresh is triggered there. -/
structure StepCtx where
  now : Int
  rctx : RefreshCtx
deriving Repr

/-- The per-line body of `Stream.stream_events` up to the yield: skip a blank
line; a `json.loads` failure raises; otherwise assign
`self.offset = json_event["metadata"]["offset"]` and, when
`is_valid_event` holds, yield `{"falcon": json_event}`. -/
def streamLine (exclude_event_types : List String) (s : Stream) :
    Line → Except String (Stream × Option Envelope)
  | .empty => .ok (s, none)
  | .malformed => .error "JSONDecodeError"
  | .event e =>
    let s1 := { s with offset := e.metadata.offset }
    if isValidEvent e.metadata.eventType exclude_event_types then
      .ok (s1, some ⟨e⟩)
    else
      .ok (s1, none)

/-- One full iteration of the `async for line in self.spigot.content` loop:
handle the line, then run the `token_expired()` check; on expiry call
`refresh()` and either `continue` or raise `"Failed to refresh token."`.
Result: state after the iteration, the envelope yielded during it (already
delivered even when the iteration then raises), and the raised error if any. -/
def streamStep (grace : Int) (exclude_event_types : List String)
    (s : Stream) (l : Line) (c : StepCtx) : Stream × Option Envelope × Option String :=
  match streamLine exclude_event_types s l with
  | .error e => (s, none, some e)
  | .ok (s1, out) =>
    if tokenExpiredGrace grace s1 c.now then
      match s1.refresh c.rctx with
      | .error e => (s1, out, some e)
      | .ok (s2, true) => (s2, out, none)
      | .ok (s2, false) => (s2, out, some "Failed to refresh token.")
    else (s1, out, none)

/-- Outcome of running a partition's read loop over a body: final `Stream`
state, the envelopes yielded to the caller in order, and the error that
terminated the loop, if any. -/
structure RunResult where
  stream : Stream
  delivered : List Envelope
  error : Option String
deriving Repr

/-- `Stream.stream_events` run over a whole body (the lines of the HTTP
response, each paired with the oracle inputs of its iteration). -/
def streamEvents (grace : Int) (exclude_event_types : List String)
    (s : Stream) : List (Line × StepCtx) → RunResult
  | [] => ⟨s, [], none⟩
  | (l, c) :: rest =>
    match streamStep grace exclude_event_types s l c with
    | (s1, out, some e) => ⟨s1, out.toList, some e⟩
    | (s1, out, none) =>
      let r := streamEvents grace exclude_event_types s1 rest
      ⟨r.stream, out.toList ++ r.delivered, r.error⟩

/-- Maximal leading digit run, the `\d+` (greedy) part of `re.findall(r"v1/(\d+)", ...)`. -/
def takeDigits : List Char → List Char
  | [] => []
  | c :: cs => if c.isDigit then c :: takeDigits cs else []

/-- `re.findall(r"v1/(\d+)", s)`: scan left to right; at each position where the
literal `v1/` is followed by at least one digit, capture the maximal digit run
and resume after the whole match (non-overlapping); otherwise advance one
character. -/
def findallV1 : List Char → List String
  | 'v' :: '1' :: '/' :: rest =>
    if takeDigits rest = [] then findallV1 ('1' :: '/' :: rest)
    else String.mk (takeDigits rest) :: findallV1 (rest.drop (takeDigits rest).length)
  | _ :: cs => findallV1 cs
  | [] => []
termination_by s => s.length
decreasing_by
  all_goals simp_wf
  all_goals omega

/-- `Stream.__init__` partition extraction:
`re.findall(r"v1/(\d+)", self.refresh_url)[0]`.  `none` models the unhandled
`IndexError` raised by `[0]` when the list of matches is empty. -/
def initPartition (refresh_url : String) : Option String :=
  (findallV1 refresh_url.data).head?

/-- `Stream.__init__` offset coercion of the EDA revision:
`self.offset = offset if offset else 0` (Python truthiness of `Optional[int]`). -/
def initOffset : Option Int → Int
  | none => 0
  | some n => if n != 0 then n else 0

/-- Python truthiness of an `Optional[int]` (`None` and `0` are falsy), as used
by `if offset and latest:` in `main`. -/
def pyTruthy : Option Int → Bool
  | none => false
  | some n => n != 0

/-- A `StreamDescriptor` as consumed by `Stream.__init__`: the fields of one
entry of `available_streams["resources"]` that the client reads. -/
structure Descriptor where
  dataFeedURL : String
  sessionToken : String
  refreshActiveSessionURL : String
  refreshActiveSessionInterval : Int
deriving Repr, DecidableEq

/-- `Stream.__init__` (EDA revision): extract the partition id (propagating the
`IndexError` as `none`), coerce the offset, record the filter sets and the
descriptor fields, set `epoch` to the current time, and leave `spigot` unset. -/
def streamInit (stream_name : String) (offset : Option Int) (latest : Bool)
    (include_event_types : List String) (epoch0 : Int) (d : Descriptor) : Option Stream :=
  match initPartition d.refreshActiveSessionURL with
  | none => none
  | some p =>
    some { stream_name := stream_name, data_feed := d.dataFeedURL, token := d.sessionToken,
           refresh_url := d.refreshActiveSessionURL, partition := p,
           offset := initOffset offset, latest := latest,
           include_event_types := include_event_types, epoch := epoch0,
           refresh_interval := d.refreshActiveSessionInterval, spigot := none }

/-- `Stream.open_stream` URL construction (EDA revision): data feed URL, then
`&whence=2` when `latest` else `&offset=<offset>`, then the include filter
`&eventType=<comma-joined include list>` when the include list is non-empty. -/
def openStreamUrl (s : Stream) : String :=
  let event_type_filter :=
    if s.include_event_types.isEmpty then ""
    else "&eventType=" ++ String.intercalate "," s.include_event_types
  let offset_filter := if s.latest then "&whence=2" else "&offset=" ++ toString s.offset
  s.data_feed ++ offset_filter ++ event_type_filter

/-- ASCII lowering of one character (`str.lower()` on the alphanumeric
`stream_name` values the plugin documents). -/
def asciiLowerChar (c : Char) : Char :=
  if 'A' ≤ c ∧ c ≤ 'Z' then Char.ofNat (c.toNat + 32) else c

/-- `str.lower()` as applied to `stream_name` in `main`. -/
def asciiLower (s : String) : String :=
  String.mk (s.data.map asciiLowerChar)

/-- The module-level `REGIONS` table. -/
def REGIONS : List (String × String) :=
  [("us-1", "https://api.crowdstrike.com"),
   ("us-2", "https://api.us-2.crowdstrike.com"),
   ("eu-1", "https://api.eu-1.crowdstrike.com"),
   ("us-gov-1", "https://api.laggar.gcw.crowdstrike.com")]

/-- The externally supplied arguments of `main` that reach the control flow
being verified (credentials and `delay` only feed the network layer and the
cooperative throttle and are omitted). -/
structure Args where
  falcon_cloud : String
  stream_name : String
  offset : Option Int
  latest : Bool
  include_event_types : List String
  exclude_event_types : List String
deriving Repr, DecidableEq

/-- The validation phase of `main` (EDA revision), everything before
`falcon = AIOFalconAPI(...)`: reject an unknown region, then reject a truthy
`offset` combined with `latest`. -/
def mainChecks (a : Args) : Except String Unit :=
  if (List.lookup a.falcon_cloud REGIONS).isNone then
    .error ("Invalid falcon_cloud: " ++ a.falcon_cloud)
  else if pyTruthy a.offset && a.latest then
    .error "'offset' and 'latest' are mutually exclusive parameters."
  else
    .ok ()

/-- Network calls issued by `main` (calls made from inside a partition's read
loop — the refresh POSTs — are already accounted for by `RefreshCtx`). -/
inductive NetCall where
  | authenticate : NetCall
  | listStreams : String → NetCall
  | openStream : String → NetCall
deriving Repr, DecidableEq

/-- The backend's responses as `main` consumes them: the `authenticate` result
and, per discovered partition, its descriptor and the body its read loop will
see.  `epoch0` is `int(time.time())` at `Stream.__init__`. -/
structure World where
  authToken : Except String String
  resources : List (Descriptor × List (Line × StepCtx))
  epoch0 : Int

/-- The `for stream in streams: async for event in stream.stream_events(...)`
loop of the EDA revision's `main`.  The whole loop sits inside a single
`try`, so an exception raised by one partition's read loop is caught outside
the `for`: the remaining partitions are never iterated.  Envelopes yielded
before the exception were already `queue.put`, so they stay delivered. -/
def edaRunStreams (ex : List String) :
    List (Stream × List (Line × StepCtx)) → List NetCall × List Envelope
  | [] => ([], [])
  | (s, body) :: rest =>
    let r := streamEvents 60 ex s body
    match r.error with
    | some _ => ([NetCall.openStream (openStreamUrl s)], r.delivered)
    | none =>
      let (cs, es) := edaRunStreams ex rest
      (NetCall.openStream (openStreamUrl s) :: cs, r.delivered ++ es)

/-- The corresponding loop of the earlier revision
(`plugins/event_source/eventstream.py`): the `try/except ... continue` sits
inside the `for`, so an error in one partition's read loop is logged and the
next partition is still iterated.  (Its `finally` also closes the shared API
client after the first partition — a defect surfacing only in the refresh
path, which here is oracle input.)  That revision has no `latest` flag and a
`29*60` grace constant. -/
def oldRunStreams (ex : List String) :
    List (Stream × List (Line × StepCtx)) → List Envelope
  | [] => []
  | (s, body) :: rest =>
    let r := streamEvents (29*60) ex s body
    r.delivered ++ oldRunStreams ex rest

/-- `main` of the EDA revision: validation, authentication, discovery, the
zero-partition early return, `Stream` construction (an `IndexError` there
propagates out of `main`), then the read loops.  Returns the network calls
issued and either the delivered envelopes or the uncaught error. -/
def mainModel (a : Args) (w : World) : List NetCall × Except String (List Envelope) :=
  match mainChecks a with
  | .error e => ([], .error e)
  | .ok _ =>
    match w.authToken with
    | .error e => ([NetCall.authenticate], .error e)
    | .ok _tok =>
      let sname := asciiLower a.stream_name
      let calls := [NetCall.authenticate, NetCall.listStreams sname]
      if w.resources.isEmpty then (calls, .ok [])
      else
        let inits := w.resources.map fun r =>
          (streamInit sname a.offset a.latest a.include_event_types w.epoch0 r.1, r.2)
        if inits.any (fun p => p.1.isNone) then (calls, .error "IndexError")
        else
          let streams := inits.filterMap fun p => p.1.map fun s => (s, p.2)
          let (cs, es) := edaRunStreams a.exclude_event_types streams
          (calls ++ cs, .ok es)

/-! ## Helper lemmas -/

theorem isValidEvent_iff (t : String) (ex : List String) :
    isValidEvent t ex = true ↔ t ∉ ex := by
  simp [isValidEvent]

theorem refresh_ok_frame (s : Stream) (c : RefreshCtx) (s' : Stream) (b : Bool)
    (h : s.refresh c = .ok (s', b)) :
    s'.offset = s.offset ∧ s'.token = s.token ∧ s'.spigot = s.spigot := by
  unfold Stream.refresh at h
  cases hA : c.auth with
  | error e => rw [hA] at h; exact absurd h (by simp)
  | ok tok =>
    rw [hA] at h
    simp only at h
    by_cases h200 : (c.refreshStatus == 200) = true
    · simp [h200] at h
      cases h.1; simp
    · simp [h200] at h
      cases h.1; simp

/-- A sample stream state used by concrete instantiations (token not expiring
at time 0: `1800 - 60 + 0 < 0` is false). -/
def sampleStream : Stream :=
  { stream_name := "eda", data_feed := "https://feed", token := "tok",
    refresh_url := "https://x/v1/0?appId=eda", partition := "0", offset := 0,
    latest := false, include_event_types := [], epoch := 0,
    refresh_interval := 1800, spigot := none }

/-- A step context in which the token is not expired at the check and any
refresh would succeed. -/
def quietCtx : StepCtx := ⟨0, ⟨.ok "t", 200, 0⟩⟩

/-! ## C6 — token expiry predicate -/

/-- Claim C6 as stated is false: `is_expired()` is claimed true exactly when
`now >= epoch + refresh_interval - grace`; at the boundary instant
`now = epoch + interval - 60` (here `1740 = 0 + 1800 - 60`) the EDA revision's
`token_expired` (strict `<`) still returns `false`. -/
theorem token_expiry_counterexample :
    ¬ ((tokenExpired sampleStream 1740 = true) ↔ (1740 : Int) ≥ 0 + 1800 - 60) := by
  decide

/-- Claim C6, amended: `token_expired()` returns true exactly when
`now > epoch + refresh_interval - grace` (strictly later than the boundary),
with grace constant 60 in the EDA revision and `29*60` in the earlier one. -/
theorem token_expiry_amended (s : Stream) (now : Int) :
    ((tokenExpired s now = true) ↔ now > s.epoch + s.refresh_interval - 60)
    ∧ ((oldTokenExpired s now = true) ↔ now > s.epoch + s.refresh_interval - 29*60) := by
  constructor
  · simp only [tokenExpired, tokenExpiredGrace, decide_eq_true_eq]
    omega
  · simp only [oldTokenExpired, tokenExpiredGrace, decide_eq_true_eq]
    omega

/-! ## C2 — include/exclude filter -/

/-- The envelope yielded while handling one event line: present exactly when
`is_valid_event` holds, whatever the expiry check and refresh outcome of that
iteration do afterwards. -/
theorem streamStep_out_event (g : Int) (ex : List String) (s : Stream)
    (e : Event) (c : StepCtx) :
    (streamStep g ex s (Line.event e) c).2.1 =
      if isValidEvent e.metadata.eventType ex then some (⟨e⟩ : Envelope) else none := by
  cases hv : isValidEvent e.metadata.eventType ex with
  | true =>
    simp only [streamStep, streamLine, hv, if_true]
    split
    · rcases h : Stream.refresh _ c.rctx with m | ⟨s2, b⟩
      · simp [h]
      · cases b <;> simp [h]
    · rfl
  | false =>
    simp only [streamStep, streamLine, hv, Bool.false_eq_true, if_false]
    split
    · rcases h : Stream.refresh _ c.rctx with m | ⟨s2, b⟩
      · simp [h]
      · cases b <;> simp [h]
    · rfl

/-- A one-line body delivers exactly the envelope yielded by its only
iteration, whether or not that iteration ends in an error. -/
theorem streamEvents_single (g : Int) (ex : List String) (s : Stream)
    (l : Line) (c : StepCtx) :
    (streamEvents g ex s [(l, c)]).delivered = (streamStep g ex s l c).2.1.toList := by
  rcases h : streamStep g ex s l c with ⟨s1, out, err⟩
  cases err <;> simp [streamEvents, h]

/-- The envelopes yielded while handling a single event line, as a list. -/
theorem streamEvents_single_event (g : Int) (ex : List String) (s : Stream)
    (e : Event) (c : StepCtx) :
    (streamEvents g ex s [(Line.event e, c)]).delivered =
      if isValidEvent e.metadata.eventType ex then [⟨e⟩] else [] := by
  rw [streamEvents_single, streamStep_out_event]
  by_cases hv : isValidEvent e.metadata.eventType ex <;> simp [hv]

/-- Claim C2 as stated is false: delivery is claimed to require membership in a
non-empty include set I, but the include filter is only sent to the server in
the request URL and is never re-checked client-side.  Concretely, with
`I = ["A"]`, `E = []`, an event of type `"B"` read from the body is delivered
even though `(I = [] ∨ "B" ∈ I) ∧ "B" ∉ E` fails. -/
theorem filter_delivery_counterexample :
    (⟨⟨⟨"B", 1⟩⟩⟩ : Envelope) ∈
      (streamEvents 60 []
        { sampleStream with include_event_types := ["A"] }
        [(Line.event ⟨⟨"B", 1⟩⟩, quietCtx)]).delivered
    ∧ ¬ ((({ sampleStream with include_event_types := ["A"] } : Stream).include_event_types = []
          ∨ "B" ∈ ({ sampleStream with include_event_types := ["A"] } : Stream).include_event_types)
        ∧ "B" ∉ ([] : List String)) := by
  constructor
  · decide
  · decide

/-- Claim C2, amended: an event of type T read from the stream body is
delivered iff T is not in the exclude set E — the include set I is applied
only server-side, in the request URL built by `open_stream`; in particular
when T is in both I and E it is not delivered (exclusion wins), and whenever
T additionally satisfies the include condition (as every event the server
sends does), delivery coincides with the claim's condition
`(I = [] ∨ T ∈ I) ∧ T ∉ E`. -/
theorem filter_delivery_amended (g : Int) (ex : List String) (s : Stream)
    (e : Event) (c : StepCtx) :
    ((⟨e⟩ : Envelope) ∈ (streamEvents g ex s [(Line.event e, c)]).delivered ↔
        e.metadata.eventType ∉ ex)
    ∧ (e.metadata.eventType ∈ s.include_event_types → e.metadata.eventType ∈ ex →
        (⟨e⟩ : Envelope) ∉ (streamEvents g ex s [(Line.event e, c)]).delivered)
    ∧ ((s.include_event_types = [] ∨ e.metadata.eventType ∈ s.include_event_types) →
        ((⟨e⟩ : Envelope) ∈ (streamEvents g ex s [(Line.event e, c)]).delivered ↔
          ((s.include_event_types = [] ∨ e.metadata.eventType ∈ s.include_event_types)
            ∧ e.metadata.eventType ∉ ex))) := by
  have hbase : (⟨e⟩ : Envelope) ∈ (streamEvents g ex s [(Line.event e, c)]).delivered ↔
      e.metadata.eventType ∉ ex := by
    rw [streamEvents_single_event]
    by_cases hv : isValidEvent e.metadata.eventType ex
    · simp [hv, (isValidEvent_iff _ _).mp hv]
    · have hmem : e.metadata.eventType ∈ ex := by
        by_contra hn
        exact hv ((isValidEvent_iff _ _).mpr hn)
      simp only [Bool.not_eq_true] at hv
      simp [hv, hmem]
  refine ⟨hbase, ?_, ?_⟩
  · intro _hI hE hmem
    exact (hbase.mp hmem) hE
  · intro hI
    rw [hbase]
    constructor
    · intro hnot
      exact ⟨hI, hnot⟩
    · intro h
      exact h.2

/-! ## C4 — frame effect of refresh -/

/-- Claim C4: when re-authentication succeeds and the backend refresh action
answers HTTP 200, `refresh()` returns `True` and resets `epoch` to the current
time, leaving every other field — in particular `offset`, `session_token` and
the open connection handle `spigot` — unchanged (so its mutation footprint is
contained in the claim's {epoch, session_token}); `refresh()` returns `True`
only on an HTTP-200 response; and an authentication failure propagates as the
error that terminates the partition's read loop. -/
theorem refresh_frame_effect (s : Stream) (c : RefreshCtx) :
    (∀ tok, c.auth = .ok tok → c.refreshStatus = 200 →
        s.refresh c = .ok ({ s with epoch := c.now }, true))
    ∧ (∀ s', s.refresh c = .ok (s', true) →
        c.refreshStatus = 200 ∧ s'.offset = s.offset ∧ s'.token = s.token
          ∧ s'.spigot = s.spigot ∧ s'.epoch = c.now)
    ∧ (∀ m, c.auth = .error m → s.refresh c = .error m) := by
  refine ⟨?_, ?_, ?_⟩
  · intro tok hA h200
    unfold Stream.refresh
    rw [hA]
    simp [h200]
  · intro s' h
    unfold Stream.refresh at h
    cases hA : c.auth with
    | error e => rw [hA] at h; exact absurd h (by simp)
    | ok tok =>
      rw [hA] at h
      simp only at h
      by_cases h200 : (c.refreshStatus == 200) = true
      · simp only [h200, if_true] at h
        cases h
        exact ⟨by simpa using h200, rfl, rfl, rfl, rfl⟩
      · simp [h200] at h
  · intro m hA
    unfold Stream.refresh
    rw [hA]

/-- Witness for C4 at a concrete state and context. -/
theorem refresh_frame_effect_witness :
    sampleStream.refresh ⟨.ok "new", 200, 99⟩ =
      .ok ({ sampleStream with epoch := 99 }, true) :=
  (refresh_frame_effect sampleStream ⟨.ok "new", 200, 99⟩).1 "new" rfl rfl

/-- A stream whose include set is `["A", "B"]`, for concrete filter checks. -/
def includeABStream : Stream := { sampleStream with include_event_types := ["A", "B"] }

/-- Witness for C2 (amended) at concrete inputs: an event of type `"B"` with
`"B"` in both the include and the exclude set is not delivered, and an event
of type `"A"` passing the include condition is delivered exactly per the
claim's composite condition. -/
theorem filter_delivery_amended_witness :
    ((⟨⟨⟨"B", 1⟩⟩⟩ : Envelope) ∉
      (streamEvents 60 ["B"] includeABStream [(Line.event ⟨⟨"B", 1⟩⟩, quietCtx)]).delivered)
    ∧ ((⟨⟨⟨"A", 1⟩⟩⟩ : Envelope) ∈
        (streamEvents 60 ["B"] includeABStream [(Line.event ⟨⟨"A", 1⟩⟩, quietCtx)]).delivered ↔
        ((includeABStream.include_event_types = [] ∨ "A" ∈ includeABStream.include_event_types)
          ∧ "A" ∉ ["B"])) :=
  ⟨(filter_delivery_amended 60 ["B"] includeABStream ⟨⟨"B", 1⟩⟩ quietCtx).2.1
      (by decide) (by decide),
   (filter_delivery_amended 60 ["B"] includeABStream ⟨⟨"A", 1⟩⟩ quietCtx).2.2
      (Or.inr (by decide))⟩

/-! ## C5 — offset/latest mutual exclusivity -/

/-- Arguments with `offset=0` supplied together with `latest=true`. -/
def zeroOffsetArgs : Args := ⟨"us-1", "eda", some 0, true, [], []⟩

/-- A world with valid credentials and no discovered partitions. -/
def emptyWorld : World := ⟨.ok "t", [], 0⟩

/-- Claim C5 as stated is false: with the externally supplied offset 0 together
with `latest=true`, the configuration is accepted — `if offset and latest`
treats 0 as absent — and `main` proceeds to the network phase (it
authenticates and lists streams) instead of failing with a configuration
error before any network call. -/
theorem offset_latest_counterexample :
    zeroOffsetArgs.offset = some 0 ∧ zeroOffsetArgs.latest = true ∧
    mainModel zeroOffsetArgs emptyWorld =
      ([NetCall.authenticate, NetCall.listStreams "eda"], .ok []) :=
  ⟨rfl, rfl, rfl⟩

/-- Claim C5, amended: for every configuration in which a *non-zero* offset is
set and `latest` is true, `main` fails with a configuration error before any
network call is made (no authentication, discovery, or stream-open request is
issued). -/
theorem offset_latest_amended (a : Args) (w : World) (n : Int)
    (hoff : a.offset = some n) (hn : n ≠ 0) (hl : a.latest = true) :
    (mainModel a w).1 = [] ∧ ∃ m, (mainModel a w).2 = .error m := by
  unfold mainModel mainChecks
  by_cases hc : (List.lookup a.falcon_cloud REGIONS).isNone
  · simp [hc]
  · have htr : (pyTruthy a.offset && a.latest) = true := by
      rw [hoff, hl]
      simp [pyTruthy, hn]
    simp [hc, htr]

/-- Witness for C5 (amended) at a concrete configuration with offset 7. -/
theorem offset_latest_amended_witness :
    (mainModel ⟨"us-1", "eda", some 7, true, [], []⟩ emptyWorld).1 = [] ∧
      ∃ m, (mainModel ⟨"us-1", "eda", some 7, true, [], []⟩ emptyWorld).2 = .error m :=
  offset_latest_amended ⟨"us-1", "eda", some 7, true, [], []⟩ emptyWorld 7 rfl
    (by decide) rfl

/-! ## C7 — zero-partition clean exit -/

/-- Claim C7: when discovery returns an empty partition list, `main` exits
cleanly — no `Stream` is constructed, no read loop is started (no
stream-open request among the issued calls), no envelope is delivered, and no
error is raised. -/
theorem zero_partition_clean_exit (a : Args) (w : World) (t : String)
    (hok : mainChecks a = .ok ()) (hauth : w.authToken = .ok t)
    (hres : w.resources = []) :
    mainModel a w =
      ([NetCall.authenticate, NetCall.listStreams (asciiLower a.stream_name)], .ok []) := by
  unfold mainModel
  rw [hok, hauth, hres]
  simp

/-- Witness for C7 at a concrete configuration and an empty discovery result. -/
theorem zero_partition_clean_exit_witness :
    mainModel ⟨"us-1", "eda", none, false, [], []⟩ emptyWorld =
      ([NetCall.authenticate, NetCall.listStreams "eda"], .ok []) :=
  zero_partition_clean_exit ⟨"us-1", "eda", none, false, [], []⟩ emptyWorld "t"
    rfl rfl rfl

/-! ## C9 — falsy offset indistinguishable from no offset -/

/-- Claim C9: in the revision supporting `latest`, an externally supplied
offset equal to 0 is indistinguishable from no offset: `Stream.__init__`
coerces any falsy offset to 0, the mutual-exclusivity check uses Python
truthiness, and the configuration `offset=0, latest=true` passes validation. -/
theorem falsy_offset_accepted :
    mainChecks ⟨"us-1", "eda", some 0, true, [], []⟩ = .ok ()
    ∧ (∀ o : Option Int, pyTruthy o = false → initOffset o = 0)
    ∧ initOffset (some 0) = initOffset none
    ∧ pyTruthy (some 0) = pyTruthy none := by
  refine ⟨rfl, ?_, rfl, rfl⟩
  intro o ho
  cases o with
  | none => rfl
  | some n =>
    have hn : n = 0 := by simpa [pyTruthy] using ho
    subst hn
    rfl

/-- Witness for C9 at the falsy offset `some 0`. -/
theorem falsy_offset_accepted_witness :
    pyTruthy (some 0) = false ∧ initOffset (some 0) = 0 :=
  ⟨by decide, falsy_offset_accepted.2.1 (some 0) (by decide)⟩

/-! ## C1 / C8 — offset tracking and ordering -/

/-- The events parsed from the non-empty, well-formed lines of a body, in
order. -/
def bodyEvents (body : List (Line × StepCtx)) : List Event :=
  body.filterMap fun lc =>
    match lc.1 with
    | .event e => some e
    | _ => none

/-- The `metadata.offset` values of the parsed lines of a body, in order. -/
def eventOffsets (body : List (Line × StepCtx)) : List Int :=
  (bodyEvents body).map fun e => e.metadata.offset

/-- The session's recorded offset after each iteration of the read loop (the
trace stops at the iteration that raises). -/
def offsetTrace (grace : Int) (ex : List String) (s : Stream) :
    List (Line × StepCtx) → List Int
  | [] => []
  | (l, c) :: rest =>
    match streamStep grace ex s l c with
    | (s1, _, some _) => [s1.offset]
    | (s1, _, none) => s1.offset :: offsetTrace grace ex s1 rest

/-- The `metadata.offset` of the last parsed line of a body, or the initial
offset when no line is parsed (the claim's reference value). -/
def lastOffset (init : Int) : List (Line × StepCtx) → Int
  | [] => init
  | (l, _) :: rest =>
    match l with
    | .event e => lastOffset e.metadata.offset rest
    | _ => lastOffset init rest

/-- The state after one iteration carries the offset of the line it parsed
(assigned before the filter runs), and is otherwise unchanged: refresh never
touches the offset. -/
theorem streamStep_offset (g : Int) (ex : List String) (s : Stream)
    (l : Line) (c : StepCtx) :
    (streamStep g ex s l c).1.offset =
      match l with
      | .event e => e.metadata.offset
      | _ => s.offset := by
  cases l with
  | empty =>
    simp only [streamStep, streamLine]
    split
    · rcases h : Stream.refresh s c.rctx with m | ⟨s2, b⟩
      · simp [h]
      · cases b <;> simp [h, (refresh_ok_frame _ _ _ _ h).1]
    · rfl
  | malformed => rfl
  | event e =>
    cases hv : isValidEvent e.metadata.eventType ex with
    | true =>
      simp only [streamStep, streamLine, hv, if_true]
      split
      · rcases h : Stream.refresh _ c.rctx with m | ⟨s2, b⟩
        · simp [h]
        · cases b <;> simp [h, (refresh_ok_frame _ _ _ _ h).1]
      · rfl
    | false =>
      simp only [streamStep, streamLine, hv, Bool.false_eq_true, if_false]
      split
      · rcases h : Stream.refresh _ c.rctx with m | ⟨s2, b⟩
        · simp [h]
        · cases b <;> simp [h, (refresh_ok_frame _ _ _ _ h).1]
      · rfl

/-- A blank line yields nothing, whatever the iteration's expiry check does. -/
theorem streamStep_out_empty (g : Int) (ex : List String) (s : Stream) (c : StepCtx) :
    (streamStep g ex s Line.empty c).2.1 = none := by
  simp only [streamStep, streamLine]
  split
  · rcases h : Stream.refresh s c.rctx with m | ⟨s2, b⟩
    · simp [h]
    · cases b <;> simp [h]
  · rfl

/-- A malformed line yields nothing (the parse raises before the yield). -/
theorem streamStep_out_malformed (g : Int) (ex : List String) (s : Stream) (c : StepCtx) :
    (streamStep g ex s Line.malformed c).2.1 = none := rfl



/-- When a run finishes without raising, the session's recorded offset equals
the `metadata.offset` of the last parsed line (filtered or not), or the
initial offset when no line was parsed. -/
theorem streamEvents_final_offset (g : Int) (ex : List String) (s : Stream)
    (body : List (Line × StepCtx))
    (h : (streamEvents g ex s body).error = none) :
    (streamEvents g ex s body).stream.offset = lastOffset s.offset body := by
  induction body generalizing s with
  | nil => rfl
  | cons hd tl ih =>
    rcases hd with ⟨l, c⟩
    rcases hstep : streamStep g ex s l c with ⟨s1, out, err⟩
    have hoff := streamStep_offset g ex s l c
    rw [hstep] at hoff
    cases err with
    | some e => simp [streamEvents, hstep] at h
    | none =>
      have hrun : streamEvents g ex s ((l, c) :: tl) =
          ⟨(streamEvents g ex s1 tl).stream,
            out.toList ++ (streamEvents g ex s1 tl).delivered,
            (streamEvents g ex s1 tl).error⟩ := by
        simp [streamEvents, hstep]
      rw [hrun] at h ⊢
      simp only at h
      cases l with
      | event e =>
        simp only [lastOffset]
        rw [ih s1 h, hoff]
      | empty =>
        simp only [lastOffset]
        rw [ih s1 h, hoff]
      | malformed =>
        simp only [lastOffset]
        rw [ih s1 h, hoff]

/-- When the parsed lines' offsets (prefixed by the initial offset) are
non-decreasing, the recorded offset never moves backward during the run. -/
theorem offsetTrace_mono (g : Int) (ex : List String) (s : Stream)
    (body : List (Line × StepCtx))
    (h : List.Chain' (· ≤ ·) (s.offset :: eventOffsets body)) :
    List.Chain' (· ≤ ·) (s.offset :: offsetTrace g ex s body) := by
  induction body generalizing s with
  | nil => simp [offsetTrace]
  | cons hd tl ih =>
    rcases hd with ⟨l, c⟩
    rcases hstep : streamStep g ex s l c with ⟨s1, out, err⟩
    have hoff := streamStep_offset g ex s l c
    rw [hstep] at hoff
    cases l with
    | event e =>
      have hev : eventOffsets ((Line.event e, c) :: tl) =
          e.metadata.offset :: eventOffsets tl := by
        simp [eventOffsets, bodyEvents]
      rw [hev, List.chain'_cons] at h
      simp only at hoff
      cases err with
      | some m =>
        simp only [offsetTrace, hstep]
        rw [List.chain'_cons, hoff]
        exact ⟨h.1, List.chain'_singleton _⟩
      | none =>
        simp only [offsetTrace, hstep]
        rw [List.chain'_cons, hoff]
        refine ⟨h.1, ?_⟩
        have := ih s1 (by rw [hoff]; exact h.2)
        rwa [hoff] at this
    | empty =>
      have hev : eventOffsets ((Line.empty, c) :: tl) = eventOffsets tl := by
        simp [eventOffsets, bodyEvents]
      rw [hev] at h
      simp only at hoff
      cases err with
      | some m =>
        simp only [offsetTrace, hstep]
        rw [List.chain'_cons, hoff]
        exact ⟨le_refl _, List.chain'_singleton _⟩
      | none =>
        simp only [offsetTrace, hstep]
        rw [List.chain'_cons, hoff]
        refine ⟨le_refl _, ?_⟩
        have := ih s1 (by rw [hoff]; exact h)
        rwa [hoff] at this
    | malformed =>
      have hev : eventOffsets ((Line.malformed, c) :: tl) = eventOffsets tl := by
        simp [eventOffsets, bodyEvents]
      rw [hev] at h
      simp only at hoff
      cases err with
      | some m =>
        simp only [offsetTrace, hstep]
        rw [List.chain'_cons, hoff]
        exact ⟨le_refl _, List.chain'_singleton _⟩
      | none =>
        simp only [offsetTrace, hstep]
        rw [List.chain'_cons, hoff]
        refine ⟨le_refl _, ?_⟩
        have := ih s1 (by rw [hoff]; exact h)
        rwa [hoff] at this

/-- The events delivered to the output sink form a subsequence of the events
parsed from the body, in their original order — no reordering, no
duplication — whether or not the run ends in an error. -/
theorem delivered_sublist (g : Int) (ex : List String) (s : Stream)
    (body : List (Line × StepCtx)) :
    List.Sublist ((streamEvents g ex s body).delivered.map Envelope.falcon)
      (bodyEvents body) := by
  induction body generalizing s with
  | nil => simp [streamEvents, bodyEvents]
  | cons hd tl ih =>
    rcases hd with ⟨l, c⟩
    rcases hstep : streamStep g ex s l c with ⟨s1, out, err⟩
    have hout := congrArg (fun p => p.2.1) hstep
    simp only at hout
    cases l with
    | event e =>
      rw [streamStep_out_event] at hout
      have hbe : bodyEvents ((Line.event e, c) :: tl) = e :: bodyEvents tl := by
        simp [bodyEvents]
      rw [hbe]
      cases err with
      | some m =>
        have hrun : (streamEvents g ex s ((Line.event e, c) :: tl)).delivered = out.toList := by
          simp [streamEvents, hstep]
        rw [hrun]
        by_cases hv : isValidEvent e.metadata.eventType ex
        · rw [if_pos hv] at hout
          rw [← hout]
          simp
        · rw [if_neg hv] at hout
          rw [← hout]
          simp
      | none =>
        have hrun : (streamEvents g ex s ((Line.event e, c) :: tl)).delivered =
            out.toList ++ (streamEvents g ex s1 tl).delivered := by
          simp [streamEvents, hstep]
        rw [hrun, List.map_append]
        by_cases hv : isValidEvent e.metadata.eventType ex
        · rw [if_pos hv] at hout
          rw [← hout]
          exact List.Sublist.cons₂ e (ih s1)
        · rw [if_neg hv] at hout
          rw [← hout]
          exact List.Sublist.cons e (ih s1)
    | empty =>
      rw [streamStep_out_empty] at hout
      have hbe : bodyEvents ((Line.empty, c) :: tl) = bodyEvents tl := by
        simp [bodyEvents]
      rw [hbe]
      cases err with
      | some m =>
        have hrun : (streamEvents g ex s ((Line.empty, c) :: tl)).delivered = out.toList := by
          simp [streamEvents, hstep]
        rw [hrun, ← hout]
        simp
      | none =>
        have hrun : (streamEvents g ex s ((Line.empty, c) :: tl)).delivered =
            out.toList ++ (streamEvents g ex s1 tl).delivered := by
          simp [streamEvents, hstep]
        rw [hrun, ← hout]
        simpa using ih s1
    | malformed =>
      have hout2 := streamStep_out_malformed g ex s c
      rw [hstep] at hout2
      simp only at hout2
      have hbe : bodyEvents ((Line.malformed, c) :: tl) = bodyEvents tl := by
        simp [bodyEvents]
      rw [hbe]
      cases err with
      | some m =>
        have hrun : (streamEvents g ex s ((Line.malformed, c) :: tl)).delivered = out.toList := by
          simp [streamEvents, hstep]
        rw [hrun, hout2]
        simp
      | none =>
        have hrun : (streamEvents g ex s ((Line.malformed, c) :: tl)).delivered =
            out.toList ++ (streamEvents g ex s1 tl).delivered := by
          simp [streamEvents, hstep]
        rw [hrun, hout2]
        simpa using ih s1

/-- The spec's example body: three events with offsets 10, 11, 12 and types
A, B, A. -/
def exBody : List (Line × StepCtx) :=
  [(Line.event ⟨⟨"A", 10⟩⟩, quietCtx), (Line.event ⟨⟨"B", 11⟩⟩, quietCtx),
   (Line.event ⟨⟨"A", 12⟩⟩, quietCtx)]

/-- A body whose two parsed lines carry the same offset. -/
def dupBody : List (Line × StepCtx) :=
  [(Line.event ⟨⟨"A", 5⟩⟩, quietCtx), (Line.event ⟨⟨"B", 5⟩⟩, quietCtx)]

/-- Claim C1 as stated is false: the recorded offset is claimed non-decreasing
for *every* sequence of lines, but the loop assigns whatever
`metadata.offset` each line carries; feeding offsets 10 then 5 makes the
recorded offset move backward (trace `[0, 10, 5]`) in a run that raises no
error. -/
theorem offset_tracking_counterexample :
    (streamEvents 60 [] sampleStream
        [(Line.event ⟨⟨"A", 10⟩⟩, quietCtx), (Line.event ⟨⟨"A", 5⟩⟩, quietCtx)]).error = none
    ∧ ¬ List.Chain' (· ≤ ·)
        (sampleStream.offset ::
          offsetTrace 60 [] sampleStream
            [(Line.event ⟨⟨"A", 10⟩⟩, quietCtx), (Line.event ⟨⟨"A", 5⟩⟩, quietCtx)]) := by
  constructor
  · decide
  · rw [show (sampleStream.offset ::
        offsetTrace 60 [] sampleStream
          [(Line.event ⟨⟨"A", 10⟩⟩, quietCtx), (Line.event ⟨⟨"A", 5⟩⟩, quietCtx)]) =
        [(0 : Int), 10, 5] from rfl]
    simp [List.chain'_cons]

/-- Claim C1, amended: after an error-free run the recorded offset equals the
`metadata.offset` of the last non-empty line processed, whether or not that
line's event passed the include/exclude filter; and whenever the offsets of
the parsed lines (prefixed by the session's starting offset) are
non-decreasing — as they are on a backend-ordered stream — the recorded
offset is non-decreasing throughout the run. -/
theorem offset_tracking_amended (g : Int) (ex : List String) (s : Stream)
    (body : List (Line × StepCtx)) :
    ((streamEvents g ex s body).error = none →
      (streamEvents g ex s body).stream.offset = lastOffset s.offset body)
    ∧ (List.Chain' (· ≤ ·) (s.offset :: eventOffsets body) →
      List.Chain' (· ≤ ·) (s.offset :: offsetTrace g ex s body)) :=
  ⟨streamEvents_final_offset g ex s body, offsetTrace_mono g ex s body⟩

/-- Witness for C1 (amended) on the spec's example body: final offset 12 and a
non-decreasing trace. -/
theorem offset_tracking_amended_witness :
    (streamEvents 60 [] sampleStream exBody).stream.offset =
      lastOffset sampleStream.offset exBody
    ∧ List.Chain' (· ≤ ·)
        (sampleStream.offset :: offsetTrace 60 [] sampleStream exBody) :=
  ⟨(offset_tracking_amended 60 [] sampleStream exBody).1 (by decide),
   (offset_tracking_amended 60 [] sampleStream exBody).2 (by
      rw [show (sampleStream.offset :: eventOffsets exBody) = [(0 : Int), 10, 11, 12] from rfl]
      simp [List.chain'_cons])⟩

/-- Claim C8 as stated is false: delivered offsets are claimed strictly
increasing for *every* input body, but a body carrying two events with equal
offsets is delivered as-is (offsets `[5, 5]`) in an error-free run. -/
theorem ordering_counterexample :
    (streamEvents 60 [] sampleStream dupBody).error = none
    ∧ ¬ List.Chain' (· < ·)
        ((streamEvents 60 [] sampleStream dupBody).delivered.map
          (fun v => v.falcon.metadata.offset)) := by
  constructor
  · decide
  · rw [show ((streamEvents 60 [] sampleStream dupBody).delivered.map
        (fun v => v.falcon.metadata.offset)) = [(5 : Int), 5] from rfl]
    simp [List.chain'_cons]

/-- Claim C8, amended: within one partition the delivered envelopes form a
subsequence of the parsed lines in their original order (the client never
reorders or duplicates), and whenever the parsed lines' offsets are strictly
increasing — as on a backend-ordered stream — the delivered offsets are
strictly increasing as well. -/
theorem ordering_amended (g : Int) (ex : List String) (s : Stream)
    (body : List (Line × StepCtx)) :
    List.Sublist ((streamEvents g ex s body).delivered.map Envelope.falcon)
      (bodyEvents body)
    ∧ (List.Chain' (· < ·) (eventOffsets body) →
      List.Chain' (· < ·)
        ((streamEvents g ex s body).delivered.map (fun v => v.falcon.metadata.offset))) := by
  refine ⟨delivered_sublist g ex s body, fun hch => ?_⟩
  have hsub := (delivered_sublist g ex s body).map (fun e => e.metadata.offset)
  rw [List.chain'_iff_pairwise] at hch ⊢
  unfold eventOffsets at hch
  have hmm : (streamEvents g ex s body).delivered.map (fun v => v.falcon.metadata.offset)
      = ((streamEvents g ex s body).delivered.map Envelope.falcon).map
          (fun e => e.metadata.offset) := by
    rw [List.map_map]
    rfl
  rw [hmm]
  exact hch.sublist hsub

/-- Witness for C8 (amended) on the spec's example body with exclude set
`["B"]`: the two delivered envelopes (offsets 10 and 12) form a strictly
increasing subsequence. -/
theorem ordering_amended_witness :
    List.Sublist ((streamEvents 60 ["B"] sampleStream exBody).delivered.map Envelope.falcon)
      (bodyEvents exBody)
    ∧ List.Chain' (· < ·)
        ((streamEvents 60 ["B"] sampleStream exBody).delivered.map
          (fun v => v.falcon.metadata.offset)) :=
  ⟨(ordering_amended 60 ["B"] sampleStream exBody).1,
   (ordering_amended 60 ["B"] sampleStream exBody).2 (by
      rw [show eventOffsets exBody = [(10 : Int), 11, 12] from rfl]
      simp [List.chain'_cons])⟩

/-- A body whose only line is malformed JSON: the read loop raises. -/
def failBody : List (Line × StepCtx) := [(Line.malformed, quietCtx)]

/-- A body with a single well-formed event of type A at offset 1. -/
def okBody : List (Line × StepCtx) := [(Line.event ⟨⟨"A", 1⟩⟩, quietCtx)]

/-- Claim C3 as stated is false for the EDA revision: its single `try` wraps
the whole `for stream in streams` loop, so a malformed line in partition 1
stops the iteration before partition 2 is ever read — partition 2's event,
which its own loop would deliver, never reaches the sink. -/
theorem partition_isolation_counterexample :
    (streamEvents 60 [] sampleStream okBody).delivered = [⟨⟨⟨"A", 1⟩⟩⟩]
    ∧ (edaRunStreams [] [(sampleStream, failBody), (sampleStream, okBody)]).2 = [] := by
  constructor
  · decide
  · decide

/-- Claim C3, amended: a per-partition streaming error terminates that
partition's read loop; in the earlier revision the `try/except ... continue`
sits inside the `for`, so every partition's deliveries are independent of the
others' errors, while in the EDA revision the exception is caught outside the
loop, so partitions after the failing one are never read (an error-free
partition is followed by the rest, a failing one ends the iteration). -/
theorem partition_isolation_amended (ex : List String)
    (parts : List (Stream × List (Line × StepCtx))) (p : Stream × List (Line × StepCtx)) :
    (oldRunStreams ex parts =
      (parts.map fun q => (streamEvents (29*60) ex q.1 q.2).delivered).flatten)
    ∧ ((streamEvents 60 ex p.1 p.2).error = none →
        (edaRunStreams ex (p :: parts)).2 =
          (streamEvents 60 ex p.1 p.2).delivered ++ (edaRunStreams ex parts).2)
    ∧ (∀ m, (streamEvents 60 ex p.1 p.2).error = some m →
        (edaRunStreams ex (p :: parts)).2 = (streamEvents 60 ex p.1 p.2).delivered) := by
  refine ⟨?_, ?_, ?_⟩
  · induction parts with
    | nil => rfl
    | cons q qs ih => simp [oldRunStreams, ih]
  · intro h
    rcases p with ⟨s, body⟩
    simp only [edaRunStreams, h]
  · intro m h
    rcases p with ⟨s, body⟩
    simp only [edaRunStreams, h]

/-- Witness for C3 (amended): concrete two-partition runs exercising both the
error-free-head and failing-head cases of the EDA loop. -/
theorem partition_isolation_amended_witness :
    ((edaRunStreams [] [(sampleStream, okBody), (sampleStream, okBody)]).2 =
      (streamEvents 60 [] sampleStream okBody).delivered ++
        (edaRunStreams [] [(sampleStream, okBody)]).2)
    ∧ ((edaRunStreams [] [(sampleStream, failBody), (sampleStream, okBody)]).2 =
        (streamEvents 60 [] sampleStream failBody).delivered) :=
  ⟨(partition_isolation_amended [] [(sampleStream, okBody)] (sampleStream, okBody)).2.1
      (by decide),
   (partition_isolation_amended [] [(sampleStream, okBody)] (sampleStream, failBody)).2.2
      "JSONDecodeError" (by decide)⟩



/-- Declarative reading of "the URL contains a substring matching
`v1/<digits>`": some decomposition exposes the literal `v1/` followed by a
non-empty digit run. -/
def hasV1Match (s : List Char) : Prop :=
  ∃ a d b, s = a ++ 'v' :: '1' :: '/' :: (d ++ b) ∧ d ≠ [] ∧ ∀ c ∈ d, c.isDigit = true

/-- Every character captured by the digit run is a digit. -/
theorem takeDigits_all_digits (l : List Char) : ∀ c ∈ takeDigits l, c.isDigit = true := by
  induction l with
  | nil => simp [takeDigits]
  | cons c cs ih =>
    by_cases h : c.isDigit
    · simp only [takeDigits, h, if_true, List.forall_mem_cons]
      exact ⟨by simp [h], ih⟩
    · simp [takeDigits, h]

/-- The digit run together with the rest of the input reassembles the input. -/
theorem takeDigits_prefix_drop (l : List Char) :
    takeDigits l ++ l.drop (takeDigits l).length = l := by
  induction l with
  | nil => rfl
  | cons c cs ih =>
    by_cases h : c.isDigit
    · simp only [takeDigits, h, if_true, List.length_cons, List.drop_succ_cons,
        List.cons_append]
      rw [ih]
    · simp [takeDigits, h]

/-- A list starting with a digit has a non-empty digit run. -/
theorem takeDigits_cons_digit (c : Char) (cs : List Char) (h : c.isDigit = true) :
    takeDigits (c :: cs) ≠ [] := by
  simp [takeDigits, h]

/-- When the scan finds no match, no decomposition of the input contains
`v1/<digits>`. -/
theorem findallV1_nil_no_match (s : List Char) (h : findallV1 s = []) :
    ¬ hasV1Match s := by
  induction s using findallV1.induct with
  | case1 rest hdig ih =>
    rw [findallV1.eq_1, if_pos hdig] at h
    rintro ⟨a, d, b, heq, hdne, hdd⟩
    cases a with
    | nil =>
      simp only [List.nil_append, List.cons.injEq] at heq
      rcases d with _ | ⟨c, d2⟩
      · exact hdne rfl
      · have hc : c.isDigit = true := hdd c (by simp)
        have : rest = c :: (d2 ++ b) := heq.2.2.2
        rw [this] at hdig
        exact takeDigits_cons_digit c _ hc hdig
    | cons x a2 =>
      simp only [List.cons_append, List.cons.injEq] at heq
      exact (ih h) ⟨a2, d, b, heq.2, hdne, hdd⟩
  | case2 rest hdig ih =>
    rw [findallV1.eq_1, if_neg hdig] at h
    exact absurd h (by simp)
  | case3 head cs hne ih =>
    rw [findallV1.eq_2 head cs hne] at h
    rintro ⟨a, d, b, heq, hdne, hdd⟩
    cases a with
    | nil =>
      simp only [List.nil_append, List.cons.injEq] at heq
      exact hne (d ++ b) heq.1 heq.2
    | cons x a2 =>
      simp only [List.cons_append, List.cons.injEq] at heq
      exact (ih h) ⟨a2, d, b, heq.2, hdne, hdd⟩
  | case4 =>
    rintro ⟨a, d, b, heq, hdne, hdd⟩
    exact absurd heq (by simp)

/-- The first match returned by the scan is a non-empty digit run occurring
literally after `v1/` in the input. -/
theorem findallV1_head_spec (s : List Char) (p : String) (ps : List String)
    (h : findallV1 s = p :: ps) :
    p.data ≠ [] ∧ (∀ c ∈ p.data, c.isDigit = true)
      ∧ ∃ a b, s = a ++ 'v' :: '1' :: '/' :: (p.data ++ b) := by
  induction s using findallV1.induct with
  | case1 rest hdig ih =>
    rw [findallV1.eq_1, if_pos hdig] at h
    rcases ih h with ⟨h1, h2, a, b, heq⟩
    exact ⟨h1, h2, 'v' :: a, b, by rw [heq]; rfl⟩
  | case2 rest hdig ih =>
    rw [findallV1.eq_1, if_neg hdig] at h
    have hp : p = { data := takeDigits rest } := (List.cons.injEq _ _ _ _ ▸ h).1.symm
    refine ⟨?_, ?_, [], rest.drop (takeDigits rest).length, ?_⟩
    · rw [hp]; exact hdig
    · rw [hp]; exact takeDigits_all_digits rest
    · rw [hp]
      simp only [List.nil_append, List.cons.injEq, true_and]
      rw [takeDigits_prefix_drop rest]
  | case3 head cs hne ih =>
    rw [findallV1.eq_2 head cs hne] at h
    rcases ih h with ⟨h1, h2, a, b, heq⟩
    exact ⟨h1, h2, head :: a, b, by rw [List.cons_append, heq]⟩
  | case4 =>
    rw [findallV1.eq_3] at h
    exact absurd h (by simp)

/-- Claim C10: `Stream.__init__` takes the first `v1/(\\d+)` match of
`refreshActiveSessionURL` without a guard, so construction fails (the
unhandled `IndexError` of `[0]`, modelled as `none`) exactly when the URL
contains no substring matching `v1/<digits>`; and when a match exists the
partition identifier is the matched digit run kept verbatim as a string (the
URL decomposes literally around it), not converted to an integer. -/
theorem partition_extraction (url : String) :
    (initPartition url = none ↔ ¬ hasV1Match url.data)
    ∧ (∀ p, initPartition url = some p →
        p.data ≠ [] ∧ (∀ c ∈ p.data, c.isDigit = true)
          ∧ ∃ a b, url.data = a ++ 'v' :: '1' :: '/' :: (p.data ++ b)) := by
  constructor
  · constructor
    · intro h
      have hnil : findallV1 url.data = [] := by
        cases hf : findallV1 url.data with
        | nil => rfl
        | cons q qs =>
          rw [initPartition, hf] at h
          exact absurd h (by simp)
      exact findallV1_nil_no_match _ hnil
    · intro hnm
      cases hf : findallV1 url.data with
      | nil => rw [initPartition, hf]; rfl
      | cons q qs =>
        rcases findallV1_head_spec _ q qs hf with ⟨h1, h2, a, b, heq⟩
        exact absurd ⟨a, q.data, b, heq, h1, h2⟩ hnm
  · intro p hp
    cases hf : findallV1 url.data with
    | nil =>
      rw [initPartition, hf] at hp
      exact absurd hp (by simp)
    | cons q qs =>
      rw [initPartition, hf] at hp
      have hqp : q = p := by simpa using hp
      rw [← hqp]
      exact findallV1_head_spec _ q qs hf

/-- Witness for C10: a URL without any `v1/<digits>` substring has no match
(construction fails), and a URL with partition digits `007` yields the digit
string verbatim, leading zero preserved. -/
theorem partition_extraction_witness :
    (¬ hasV1Match ("https://fh/v2/9?a" : String).data)
    ∧ (("007" : String).data ≠ [] ∧ (∀ c ∈ ("007" : String).data, c.isDigit = true)
        ∧ ∃ a b, ("x/v1/007?a" : String).data =
            a ++ 'v' :: '1' :: '/' :: (("007" : String).data ++ b)) :=
  ⟨(partition_extraction "https://fh/v2/9?a").1.mp
      (by simp [initPartition, findallV1, takeDigits]),
   (partition_extraction "x/v1/007?a").2 "007"
      (by simp [initPartition, findallV1, takeDigits])⟩

end Falcon
